import Mathlib

/-!
Shallow embedding of the PathCopyCopy plugin-registry core:
the COM-plugin assembly step of `PluginsRegistry.GetCOMPlugins`,
the display-order reconciliation `PluginsRegistry.OrderPluginsToDisplay`,
the pipeline-plugin append step `PluginsRegistry.GetPipelinePlugins`
(all from `src/PathCopyCopySettings/Core/Plugins/PluginsRegistry.cs`),
the plugin-id list codec of `src/PathCopyCopy/src/PluginUtils.cpp`, and
the pipeline execution engine (modelled from the specification, since its
source is not part of the provided tree).

Plugin ids (`System.Guid` / `GUID`) are modelled as natural numbers for the
registry part (only ordering and equality of ids matter there) and as a
full GUID record for the textual codec.  C# `int` values are modelled as
`Int` together with the explicit 32-bit wrap-around used by unchecked
subtraction.
-/

/-- A menu entry: either a real plugin (stable id, separator flag `false`)
or the special separator variant (`isSep = true`).  Models the C#
`Plugin` class hierarchy where `SeparatorPlugin` is recognized with an
`is SeparatorPlugin` type test. -/
structure MPlugin where
  id : Nat
  isSep : Bool
deriving DecidableEq, Repr

/-- The separator menu entry (`new SeparatorPlugin()`). -/
def separatorPlugin : MPlugin := ⟨0, true⟩

/-- Bean with info about a COM plugin, as in the private C# class
`COMPluginInfo`: the plugin (we keep its id and registration scope) plus
its group id and its position inside the group, both C# `int`s. -/
structure COMPluginInfo where
  id : Nat
  groupId : Int
  groupPosition : Int
  global : Bool
deriving DecidableEq, Repr

/-- The `Plugin` payload stored in a `COMPluginInfo` bean, as inserted
into the output list by the emission loop. -/
def COMPluginInfo.toPlugin (info : COMPluginInfo) : MPlugin :=
  ⟨info.id, false⟩

/-- 32-bit two's-complement wrap-around: the value of the C# unchecked
`int` expression holding the mathematical integer `x`. -/
def wrap32 (x : Int) : Int :=
  (x + 2 ^ 31) % 2 ^ 32 - 2 ^ 31

/-- `Int32.MaxValue`. -/
def int32Max : Int := 2 ^ 31 - 1

/-- The id comparator passed to the first `comPluginInfos.Sort` call:
`info1.Plugin.Id.CompareTo(info2.Plugin.Id)`. -/
def cmpId (a b : COMPluginInfo) : Int :=
  if a.id < b.id then -1 else if a.id = b.id then 0 else 1

/-- The group comparator passed to the second `comPluginInfos.Sort` call:
`cmp = info1.GroupId - info2.GroupId; if (cmp == 0) cmp = info1.GroupPosition
- info2.GroupPosition`.  The subtractions are unchecked C# `int`
subtractions, hence the 32-bit wrap. -/
def cmpGroup (a b : COMPluginInfo) : Int :=
  let c := wrap32 (a.groupId - b.groupId)
  if c = 0 then wrap32 (a.groupPosition - b.groupPosition) else c

/-- Ordering relation induced by `cmpId` (the sort keeps `a` before `b`
when the comparator is non-positive). -/
def rId (a b : COMPluginInfo) : Prop := cmpId a b ≤ 0

instance : DecidableRel rId := fun a b =>
  inferInstanceAs (Decidable (cmpId a b ≤ 0))

/-- Ordering relation induced by `cmpGroup`. -/
def rGroup (a b : COMPluginInfo) : Prop := cmpGroup a b ≤ 0

instance : DecidableRel rGroup := fun a b =>
  inferInstanceAs (Decidable (cmpGroup a b ≤ 0))

/-- Helper for the duplicate-removal loop: drops every element whose id
equals the id of its predecessor in the original list (`prev` is the
predecessor of the head). -/
def removeAdjDupIdsAux (prev : COMPluginInfo) :
    List COMPluginInfo → List COMPluginInfo
  | [] => []
  | b :: rest =>
      if b.id = prev.id then removeAdjDupIdsAux b rest
      else b :: removeAdjDupIdsAux b rest

/-- The duplicate-removal loop that follows the id sort.  The backward C#
loop `for (int i = Count - 1; i > 0; --i) if (Id[i] == Id[i-1]) RemoveAt(i)`
only ever removes at indices above the one it inspects next, so it keeps
element `i` exactly when `i = 0` or its id differs from the id of element
`i - 1` of the original list, which is what this recursion computes. -/
def removeAdjDupIds : List COMPluginInfo → List COMPluginInfo
  | [] => []
  | a :: rest => a :: removeAdjDupIdsAux a rest

/-- The sort-and-dedup phase of `GetCOMPlugins` (only performed when the
candidate list has more than one element), followed by the group sort. -/
def comSortedDedup (infos : List COMPluginInfo) : List COMPluginInfo :=
  let deduped :=
    if 1 < infos.length then removeAdjDupIds (List.insertionSort rId infos)
    else infos
  List.insertionSort rGroup deduped

/-- The emission loop at the end of `GetCOMPlugins`: copies every bean's
plugin into the output list, inserting a separator whenever the output
list is non-empty and the group id changes (`currentGroup` starts at
`Int32.MaxValue`). -/
def comEmitLoop : List MPlugin → Int → List COMPluginInfo → List MPlugin
  | plugins, _, [] => plugins
  | plugins, currentGroup, info :: rest =>
      let plugins1 :=
        if 0 < plugins.length ∧ currentGroup ≠ info.groupId
        then plugins ++ [separatorPlugin] else plugins
      comEmitLoop (plugins1 ++ [info.toPlugin]) info.groupId rest

/-- The COM-plugin step of `GetPluginsInDefaultOrder`: sort, dedup, group
sort, then emit into the list built so far. -/
def GetCOMPlugins (plugins : List MPlugin) (infos : List COMPluginInfo) :
    List MPlugin :=
  comEmitLoop plugins int32Max (comSortedDedup infos)

/-- Specification form of the emission loop: the sequence of entries the
loop appends, given whether the list is already non-empty (`ne`) and the
current group id. -/
def comEmit (ne : Bool) (cur : Int) : List COMPluginInfo → List MPlugin
  | [] => []
  | info :: rest =>
      (if ne ∧ cur ≠ info.groupId then [separatorPlugin] else []) ++
        info.toPlugin :: comEmit true info.groupId rest

/-- `IDictionary<Guid, Plugin>.TryGetValue`, for a map modelled as an
association list. -/
def TryGetValue (plugins : List (Nat × MPlugin)) (id : Nat) : Option MPlugin :=
  match plugins with
  | [] => none
  | (k, p) :: rest => if k = id then some p else TryGetValue rest id

/-- `orderedPlugins.Count > 0 && orderedPlugins[Count - 1] is SeparatorPlugin`. -/
def lastIsSeparator (l : List MPlugin) : Bool :=
  match l.getLast? with
  | some p => p.isSep
  | none => false

/-- The default-order walk used for unknown plugins in
`OrderPluginsToDisplay`: appends every non-separator plugin of the
default list whose id is unknown, and appends a separator of the default
list only when the previously considered entry was an unknown plugin that
got appended (`prevWasUnknown`). -/
def unknownWalk (unknownIds : Finset Nat) : List MPlugin → Bool → List MPlugin
  | [], _ => []
  | p :: rest, prevWasUnknown =>
      if p.isSep = false then
        if p.id ∈ unknownIds then p :: unknownWalk unknownIds rest true
        else unknownWalk unknownIds rest false
      else
        if prevWasUnknown then p :: unknownWalk unknownIds rest false
        else unknownWalk unknownIds rest false

/-- The first phase of `OrderPluginsToDisplay`: walk `displayOrder` and
keep, in order, the plugins found in the map. -/
def displayOrderWalk (plugins : List (Nat × MPlugin))
    (displayOrder : List Nat) : List MPlugin :=
  displayOrder.filterMap (fun id => TryGetValue plugins id)

/-- The unknown-id set of `OrderPluginsToDisplay`: the C# `SortedSet<Guid>`
built from the ids of the values of the map, with the known ids removed
(`ExceptWith`), modelled as a `Finset` (membership tests; iterated in
ascending order via `Finset.sort`). -/
def unknownIdsOf (plugins : List (Nat × MPlugin)) (known : List Nat) :
    Finset Nat :=
  (plugins.map (fun pr => pr.2.id)).toFinset \ known.toFinset

/-- `if (orderedPlugins.Count > 0 && !(last is SeparatorPlugin)) Add(sep)`. -/
def withSeparatorIfNeeded (l : List MPlugin) : List MPlugin :=
  if 0 < l.length ∧ lastIsSeparator l = false then l ++ [separatorPlugin]
  else l

/-- `PluginsRegistry.OrderPluginsToDisplay`: first the display-order walk;
then, when a known-plugin set is supplied and unknown ids exist, a
separator is appended if needed, followed by either the default-order walk
or, failing a default list, the unknown ids in sorted-set order. -/
def OrderPluginsToDisplay (plugins : List (Nat × MPlugin))
    (displayOrder : List Nat) (knownPlugins : Option (List Nat))
    (pluginsInDefaultOrder : Option (List MPlugin)) : List MPlugin :=
  let orderedPlugins := displayOrderWalk plugins displayOrder
  match knownPlugins with
  | none => orderedPlugins
  | some known =>
      let unknownIds := unknownIdsOf plugins known
      if 0 < unknownIds.card then
        let base := withSeparatorIfNeeded orderedPlugins
        match pluginsInDefaultOrder with
        | some dflt => base ++ unknownWalk unknownIds dflt false
        | none =>
            base ++ (unknownIds.sort (· ≤ ·)).filterMap
              (fun id => TryGetValue plugins id)
      else orderedPlugins

/-- `PluginsRegistry.GetPipelinePlugins`: when at least one pipeline
plugin exists, append a separator (only if the list is non-empty) and then
all pipeline plugins in their stored configuration order
(`PipelinePluginInfo.ToPlugins` keeps the order of the stored list). -/
def GetPipelinePlugins (plugins : List MPlugin)
    (pipelinePlugins : List MPlugin) : List MPlugin :=
  if 0 < pipelinePlugins.length then
    (if 0 < plugins.length then plugins ++ [separatorPlugin] else plugins) ++
      pipelinePlugins
  else plugins

/-- Metadata of a COM plugin candidate, as fetched through the four
executor queries (`GetDescription`, `GetGroupId`, `GetGroupPosition` and
the icon queries); only the fields the registry keeps in the bean are
retained. -/
structure COMMeta where
  groupId : Int
  groupPosition : Int
deriving DecidableEq, Repr

/-- A raw value found under a COM-plugins registry key: its name plus the
outcome of the metadata fetch (`none` models a
`COMPluginExecutorException` thrown by any of the queries). -/
structure RawEntry where
  name : List Char
  meta : Option COMMeta

/-- Name of the legacy marker value, skipped during the scan. -/
def legacyLastUpdateName : List Char :=
  ['L', 'a', 's', 't', 'U', 'p', 'd', 'a', 't', 'e']

/-- The body of the scan loop for one registry value: skip the legacy
marker, skip names that do not parse as a UUID (`parse`, the framework
`new Guid(string)` constructor, is a parameter since it is external
code), skip entries whose metadata fetch failed; otherwise produce the
bean. -/
def collectEntry (parse : List Char → Option Nat) (global : Bool)
    (e : RawEntry) : Option COMPluginInfo :=
  if e.name = legacyLastUpdateName then none
  else
    match parse e.name with
    | none => none
    | some id =>
        match e.meta with
        | none => none
        | some m => some ⟨id, m.groupId, m.groupPosition, global⟩

/-- The scan of one registration scope in `GetCOMPlugins`.  `scope = none`
models a missing key or a `SecurityException` (access denied): the source
contributes nothing. -/
def collectScope (parse : List Char → Option Nat)
    (scope : Option (List RawEntry)) (global : Bool) : List COMPluginInfo :=
  match scope with
  | none => []
  | some entries => entries.filterMap (collectEntry parse global)

/-- The candidate collection over both registration scopes (machine-wide
first, then user-specific). -/
def collectCOMPlugins (parse : List Char → Option Nat)
    (globalScope userScope : Option (List RawEntry)) : List COMPluginInfo :=
  collectScope parse globalScope true ++ collectScope parse userScope false

/-- Outcome of one pipeline step applied to a path: a transformed path, or
a hard failure (e.g. an external command that could not be spawned).
Modelled from the spec: the step sequence of a pipeline plugin
(`PipelinePlugin`/`PathCopyCopyPluginsRegistry` C++ sources are not under
`src/`). -/
inductive StepResult where
  | ok (out : List Char)
  | hardFail
deriving DecidableEq, Repr

/-- A pipeline step: a function from the current path to a step outcome.
Modelled from the spec: soft issues (e.g. a regex that matches nothing)
are represented by the step returning its input unchanged; only hard
failures use `StepResult.hardFail`. -/
def PipelineStep : Type := List Char → StepResult

/-- Modelled from the spec: `GetPath` of a pipeline plugin iterates the
step sequence in declared order, feeding each step's output to the next;
a hard failure stops execution and makes the whole pipeline fail, so the
intermediate path is discarded (`none`). -/
def PipelineGetPath (steps : List PipelineStep) (input : List Char) :
    Option (List Char) :=
  match steps with
  | [] => some input
  | s :: rest =>
      match s input with
      | StepResult.ok out => PipelineGetPath rest out
      | StepResult.hardFail => none

/-- A `GUID` struct, as in the C++ sources: a 32-bit field, two 16-bit
fields and eight bytes. -/
structure MGUID where
  data1 : Nat
  data2 : Nat
  data3 : Nat
  data4 : List Nat
deriving DecidableEq, Repr

/-- Well-formedness of a `GUID` value: fields within their machine
ranges and exactly eight trailing bytes. -/
def MGUID.WF (g : MGUID) : Prop :=
  g.data1 < 2 ^ 32 ∧ g.data2 < 2 ^ 16 ∧ g.data3 < 2 ^ 16 ∧
    g.data4.length = 8 ∧ ∀ b ∈ g.data4, b < 256

instance (g : MGUID) : Decidable g.WF := by unfold MGUID.WF; infer_instance

/-- Uppercase hexadecimal digit for a value below 16
(`'0'` is code 48, `'A'` is code 65). -/
def hexDigitChar (n : Nat) : Char :=
  if n < 10 then Char.ofNat (48 + n) else Char.ofNat (55 + n)

/-- Fixed-width big-endian uppercase hexadecimal rendering of `n`. -/
def natToHex : Nat → Nat → List Char
  | 0, _ => []
  | w + 1, n => hexDigitChar (n / 16 ^ w) :: natToHex w (n % 16 ^ w)

/-- Value of one hexadecimal digit character (either case accepted). -/
def parseHexDigit (c : Char) : Option Nat :=
  if 48 ≤ c.toNat ∧ c.toNat ≤ 57 then some (c.toNat - 48)
  else if 65 ≤ c.toNat ∧ c.toNat ≤ 70 then some (c.toNat - 55)
  else if 97 ≤ c.toNat ∧ c.toNat ≤ 102 then some (c.toNat - 87)
  else none

/-- Consume exactly `w` hexadecimal digits, returning their big-endian
value and the remaining characters. -/
def parseHexFixed : Nat → List Char → Option (Nat × List Char)
  | 0, cs => some (0, cs)
  | _ + 1, [] => none
  | w + 1, c :: cs =>
      match parseHexDigit c with
      | none => none
      | some d =>
          match parseHexFixed w cs with
          | none => none
          | some (n, rest) => some (d * 16 ^ w + n, rest)

/-- Two-digit hexadecimal rendering of a byte. -/
def byteToHex (b : Nat) : List Char := natToHex 2 b

/-- Consume exactly `k` two-digit bytes. -/
def parseBytes : Nat → List Char → Option (List Nat × List Char)
  | 0, cs => some ([], cs)
  | k + 1, cs =>
      match parseHexFixed 2 cs with
      | none => none
      | some (b, rest) =>
          match parseBytes k rest with
          | none => none
          | some (bs, rest2) => some (b :: bs, rest2)

/-- Modelled from the spec: the textual form of a GUID produced by the
Windows `StringFromGUID2` API used by `PluginUtils::PluginIdsToString`:
`{XXXXXXXX-XXXX-XXXX-XXXX-XXXXXXXXXXXX}` with uppercase hexadecimal
digits. -/
def guidToChars (g : MGUID) : List Char :=
  '{' :: natToHex 8 g.data1 ++
    '-' :: natToHex 4 g.data2 ++
    '-' :: natToHex 4 g.data3 ++
    '-' :: ((g.data4.take 2).map byteToHex).flatten ++
    '-' :: ((g.data4.drop 2).map byteToHex).flatten ++ ['}']

/-- Consume one expected character. -/
def expectChar (c : Char) : List Char → Option (List Char)
  | [] => none
  | c0 :: rest => if c0 = c then some rest else none

/-- Modelled from the spec: the Windows `CLSIDFromString` API used by
`PluginUtils::StringToPluginIds`, on the braced GUID format (the format
`StringFromGUID2` emits); any other input is rejected. -/
def CLSIDFromString (cs : List Char) : Option MGUID :=
  (expectChar '{' cs).bind fun cs1 =>
  (parseHexFixed 8 cs1).bind fun p1 =>
  (expectChar '-' p1.2).bind fun cs2 =>
  (parseHexFixed 4 cs2).bind fun p2 =>
  (expectChar '-' p2.2).bind fun cs3 =>
  (parseHexFixed 4 cs3).bind fun p3 =>
  (expectChar '-' p3.2).bind fun cs4 =>
  (parseBytes 2 cs4).bind fun pb1 =>
  (expectChar '-' pb1.2).bind fun cs5 =>
  (parseBytes 6 cs5).bind fun pb2 =>
  (expectChar '}' pb2.2).bind fun cs6 =>
  match cs6 with
  | [] => some ⟨p1.1, p2.1, p3.1, pb1.1 ++ pb2.1⟩
  | _ => none

/-- Modelled from the spec: `StringUtils::Split` (its source is not under
`src/`), splitting a string on every occurrence of the separator
character. -/
def SplitString (s : List Char) (sep : Char) : List (List Char) :=
  s.splitOn sep

/-- `PluginUtils::PluginIdsToString`: the first id is inserted without a
separator, every further id is preceded by the separator character. -/
def PluginIdsToString (ids : List MGUID) (sep : Char) : List Char :=
  match ids with
  | [] => []
  | g :: rest =>
      guidToChars g ++ (rest.map (fun g2 => sep :: guidToChars g2)).flatten

/-- `PluginUtils::StringToPluginIds`: split the string on the separator,
convert every part that is accepted by `CLSIDFromString`, and drop the
parts that are not. -/
def StringToPluginIds (s : List Char) (sep : Char) : List MGUID :=
  (SplitString s sep).filterMap CLSIDFromString

/-- The characters that can occur in the textual form of a GUID. -/
def guidTextChars : List Char :=
  ['{', '}', '-', '0', '1', '2', '3', '4', '5', '6', '7', '8', '9',
   'A', 'B', 'C', 'D', 'E', 'F']

/-! ### Generic facts about comparator-based insertion sort -/

/-- `orderedInsert` preserves pairwise sortedness when the relation is
total and transitive on the elements involved (the comparators of the C#
code are only well behaved on a restricted range, so the hypotheses are
relativized to a predicate `P`). -/
theorem pairwise_orderedInsert_of {α : Type} (r : α → α → Prop)
    [DecidableRel r] (P : α → Prop)
    (total : ∀ a b, P a → P b → ¬r a b → r b a)
    (trans : ∀ a b c, P a → P b → P c → r a b → r b c → r a c)
    (a : α) (ha : P a) :
    ∀ L : List α, (∀ x ∈ L, P x) → L.Pairwise r →
      (L.orderedInsert r a).Pairwise r := by
  intro L
  induction L with
  | nil => intro _ _; simp
  | cons b t ih =>
      intro hL hp
      have hb : P b := hL b (by simp)
      have ht : ∀ x ∈ t, P x := fun x hx => hL x (by simp [hx])
      rw [List.orderedInsert]
      by_cases h : r a b
      · rw [if_pos h]
        refine List.Pairwise.cons ?_ hp
        intro x hx
        rcases List.mem_cons.mp hx with rfl | hxt
        · exact h
        · exact trans a b x ha hb (ht x hxt)
            h ((List.pairwise_cons.mp hp).1 x hxt)
      · rw [if_neg h]
        refine List.Pairwise.cons ?_ (ih ht (List.pairwise_cons.mp hp).2)
        intro x hx
        rcases (List.mem_orderedInsert r).mp hx with h' | hxt
        · rw [h']; exact total a b ha hb h
        · exact (List.pairwise_cons.mp hp).1 x hxt

/-- `insertionSort` produces a pairwise-sorted list whenever the relation
is total and transitive on the input's elements. -/
theorem pairwise_insertionSort_of {α : Type} (r : α → α → Prop)
    [DecidableRel r] (P : α → Prop)
    (total : ∀ a b, P a → P b → ¬r a b → r b a)
    (trans : ∀ a b c, P a → P b → P c → r a b → r b c → r a c) :
    ∀ l : List α, (∀ x ∈ l, P x) → (List.insertionSort r l).Pairwise r := by
  intro l
  induction l with
  | nil => intro _; simp
  | cons x t ih =>
      intro hl
      rw [List.insertionSort]
      refine pairwise_orderedInsert_of r P total trans x (hl x (by simp))
        (List.insertionSort r t) ?_ (ih fun y hy => hl y (by simp [hy]))
      intro y hy
      exact hl y (by simp [(List.mem_insertionSort r).mp hy])

/-! ### Facts about the id sort and the duplicate removal -/

theorem rId_iff (a b : COMPluginInfo) : rId a b ↔ a.id ≤ b.id := by
  unfold rId cmpId
  rcases Nat.lt_trichotomy a.id b.id with h | h | h
  · simp [h, Nat.le_of_lt h]
  · simp [h]
  · have h1 : ¬a.id < b.id := by omega
    have h2 : ¬a.id = b.id := by omega
    simp only [h1, h2, if_false]
    constructor
    · intro hc; omega
    · intro hc; omega

theorem removeAdjDupIdsAux_sublist (l : List COMPluginInfo) :
    ∀ prev, List.Sublist (removeAdjDupIdsAux prev l) l := by
  induction l with
  | nil => intro prev; simp [removeAdjDupIdsAux]
  | cons b rest ih =>
      intro prev
      rw [removeAdjDupIdsAux]
      by_cases h : b.id = prev.id
      · rw [if_pos h]; exact (ih b).cons b
      · rw [if_neg h]; exact (ih b).cons₂ b

theorem removeAdjDupIds_sublist (l : List COMPluginInfo) :
    List.Sublist (removeAdjDupIds l) l := by
  cases l with
  | nil => simp [removeAdjDupIds]
  | cons a rest =>
      rw [removeAdjDupIds]
      exact (removeAdjDupIdsAux_sublist rest a).cons₂ a

theorem mem_map_id_removeAdjDupIdsAux (l : List COMPluginInfo) :
    ∀ prev i, i ∈ l.map COMPluginInfo.id →
      i = prev.id ∨ i ∈ (removeAdjDupIdsAux prev l).map COMPluginInfo.id := by
  induction l with
  | nil => intro prev i hi; simp at hi
  | cons b rest ih =>
      intro prev i hi
      rw [removeAdjDupIdsAux]
      rcases List.mem_map.mp hi with ⟨x, hx, hxi⟩
      by_cases h : b.id = prev.id
      · rw [if_pos h]
        rcases List.mem_cons.mp hx with rfl | hxr
        · left; rw [← hxi, h]
        · rcases ih b i (List.mem_map.mpr ⟨x, hxr, hxi⟩) with h' | h'
          · left; rw [h', h]
          · right; exact h'
      · rw [if_neg h]
        rcases List.mem_cons.mp hx with rfl | hxr
        · right; rw [← hxi]; simp
        · rcases ih b i (List.mem_map.mpr ⟨x, hxr, hxi⟩) with h' | h'
          · right; rw [h']; simp
          · right
            rw [List.map_cons]
            exact List.mem_cons.mpr (Or.inr h')

theorem mem_map_id_removeAdjDupIds (l : List COMPluginInfo) (i : Nat) :
    i ∈ (removeAdjDupIds l).map COMPluginInfo.id ↔
      i ∈ l.map COMPluginInfo.id := by
  constructor
  · intro h
    exact ((removeAdjDupIds_sublist l).map COMPluginInfo.id).subset h
  · intro h
    cases l with
    | nil => simp at h
    | cons a rest =>
        rw [removeAdjDupIds]
        rcases List.mem_map.mp h with ⟨x, hx, hxi⟩
        rcases List.mem_cons.mp hx with rfl | hxr
        · rw [← hxi]; simp
        · rcases mem_map_id_removeAdjDupIdsAux rest a i
            (List.mem_map.mpr ⟨x, hxr, hxi⟩) with h' | h'
          · rw [h']; simp
          · rw [List.map_cons]
            exact List.mem_cons.mpr (Or.inr h')

theorem nodup_map_id_removeAdjDupIdsAux (l : List COMPluginInfo) :
    ∀ prev, l.Pairwise rId → (∀ x ∈ l, prev.id ≤ x.id) →
      ((removeAdjDupIdsAux prev l).map COMPluginInfo.id).Nodup ∧
        ∀ i ∈ (removeAdjDupIdsAux prev l).map COMPluginInfo.id, prev.id < i := by
  induction l with
  | nil => intro prev _ _; simp [removeAdjDupIdsAux]
  | cons b rest ih =>
      intro prev hp hge
      have hbp : prev.id ≤ b.id := hge b (by simp)
      have hrest : ∀ x ∈ rest, b.id ≤ x.id := fun x hx =>
        (rId_iff b x).mp ((List.pairwise_cons.mp hp).1 x hx)
      rcases ih b (List.pairwise_cons.mp hp).2 hrest with ⟨ihn, ihgt⟩
      rw [removeAdjDupIdsAux]
      by_cases h : b.id = prev.id
      · rw [if_pos h]
        refine ⟨ihn, fun i hi => ?_⟩
        have := ihgt i hi
        omega
      · rw [if_neg h]
        rw [List.map_cons]
        constructor
        · refine List.nodup_cons.mpr ⟨fun hb => ?_, ihn⟩
          exact absurd (ihgt b.id hb) (by omega)
        · intro i hi
          rcases List.mem_cons.mp hi with rfl | hi'
          · omega
          · have := ihgt i hi'
            omega

theorem nodup_map_id_removeAdjDupIds (l : List COMPluginInfo)
    (hp : l.Pairwise rId) :
    ((removeAdjDupIds l).map COMPluginInfo.id).Nodup := by
  cases l with
  | nil => simp [removeAdjDupIds]
  | cons a rest =>
      rw [removeAdjDupIds, List.map_cons]
      have hrest : ∀ x ∈ rest, a.id ≤ x.id := fun x hx =>
        (rId_iff a x).mp ((List.pairwise_cons.mp hp).1 x hx)
      rcases nodup_map_id_removeAdjDupIdsAux rest a
        (List.pairwise_cons.mp hp).2 hrest with ⟨hn, hgt⟩
      refine List.nodup_cons.mpr ⟨fun ha => ?_, hn⟩
      exact absurd (hgt a.id ha) (by omega)

/-! ### The group comparator on in-range values -/

/-- The intended (unwrapped) ordering on beans: group id ascending, ties
broken by group position. -/
def lexLE (a b : COMPluginInfo) : Prop :=
  a.groupId < b.groupId ∨
    (a.groupId = b.groupId ∧ a.groupPosition ≤ b.groupPosition)

instance : DecidableRel lexLE := fun a b =>
  inferInstanceAs (Decidable (a.groupId < b.groupId ∨
    (a.groupId = b.groupId ∧ a.groupPosition ≤ b.groupPosition)))

theorem wrap32_eq_self (x : Int) (h1 : -2 ^ 31 ≤ x) (h2 : x < 2 ^ 31) :
    wrap32 x = x := by
  unfold wrap32
  have h3 : 0 ≤ x + 2 ^ 31 := by omega
  have h4 : x + 2 ^ 31 < 2 ^ 32 := by omega
  rw [Int.emod_eq_of_lt h3 h4]
  omega

/-- Range of values the comparator handles without wrap-around. -/
def InRange (x : COMPluginInfo) : Prop :=
  0 ≤ x.groupId ∧ x.groupId < 2 ^ 31 ∧
    0 ≤ x.groupPosition ∧ x.groupPosition < 2 ^ 31

instance (x : COMPluginInfo) : Decidable (InRange x) := by
  unfold InRange; infer_instance

theorem rGroup_iff_lexLE (a b : COMPluginInfo)
    (ha : InRange a) (hb : InRange b) : rGroup a b ↔ lexLE a b := by
  obtain ⟨ha1, ha2, ha3, ha4⟩ := ha
  obtain ⟨hb1, hb2, hb3, hb4⟩ := hb
  unfold rGroup cmpGroup lexLE
  rw [wrap32_eq_self (a.groupId - b.groupId) (by omega) (by omega),
    wrap32_eq_self (a.groupPosition - b.groupPosition) (by omega) (by omega)]
  by_cases h : a.groupId - b.groupId = 0
  · rw [if_pos h]
    constructor
    · intro hc; right; constructor <;> omega
    · intro hc
      rcases hc with hc | ⟨hc1, hc2⟩
      · omega
      · omega
  · rw [if_neg h]
    constructor
    · intro hc; left; omega
    · intro hc
      rcases hc with hc | ⟨hc1, hc2⟩
      · omega
      · omega

theorem rGroup_total_inRange (a b : COMPluginInfo)
    (ha : InRange a) (hb : InRange b) (h : ¬rGroup a b) : rGroup b a := by
  rw [rGroup_iff_lexLE a b ha hb] at h
  rw [rGroup_iff_lexLE b a hb ha]
  unfold lexLE at h ⊢
  by_cases h1 : b.groupId < a.groupId
  · left; exact h1
  · right
    constructor
    · omega
    · by_contra h2
      exact h (Or.inr ⟨by omega, by omega⟩)

theorem rGroup_trans_inRange (a b c : COMPluginInfo)
    (ha : InRange a) (hb : InRange b) (hc : InRange c)
    (h1 : rGroup a b) (h2 : rGroup b c) : rGroup a c := by
  rw [rGroup_iff_lexLE a b ha hb] at h1
  rw [rGroup_iff_lexLE b c hb hc] at h2
  rw [rGroup_iff_lexLE a c ha hc]
  unfold lexLE at h1 h2 ⊢
  rcases h1 with h1 | ⟨h1a, h1b⟩ <;> rcases h2 with h2 | ⟨h2a, h2b⟩
  · left; omega
  · left; omega
  · left; omega
  · right; constructor <;> omega

/-! ### The emission loop and its specification form -/

theorem comEmitLoop_eq_comEmit (infos : List COMPluginInfo) :
    ∀ (plugins : List MPlugin) (cur : Int),
      comEmitLoop plugins cur infos
        = plugins ++ comEmit (decide (0 < plugins.length)) cur infos := by
  induction infos with
  | nil => intro plugins cur; simp [comEmitLoop, comEmit]
  | cons info rest ih =>
      intro plugins cur
      simp only [comEmitLoop, comEmit]
      by_cases h : 0 < plugins.length ∧ cur ≠ info.groupId
      · rw [if_pos h, ih,
          if_pos (show (decide (0 < plugins.length) = true) ∧ cur ≠ info.groupId
            from ⟨decide_eq_true h.1, h.2⟩),
          decide_eq_true
            (show 0 < ((plugins ++ [separatorPlugin]) ++ [info.toPlugin]).length
              by simp)]
        simp
      · have hne : ¬((decide (0 < plugins.length) = true) ∧ cur ≠ info.groupId) :=
          fun hc => h ⟨of_decide_eq_true hc.1, hc.2⟩
        rw [if_neg h, ih, if_neg hne,
          decide_eq_true (show 0 < (plugins ++ [info.toPlugin]).length by simp)]
        simp

theorem filter_comEmit (infos : List COMPluginInfo) :
    ∀ ne cur, (comEmit ne cur infos).filter (fun p => !p.isSep)
      = infos.map COMPluginInfo.toPlugin := by
  induction infos with
  | nil => intro ne cur; simp [comEmit]
  | cons info rest ih =>
      intro ne cur
      rw [comEmit, List.filter_append]
      by_cases h : (ne = true) ∧ cur ≠ info.groupId
      · rw [if_pos h]
        simp [List.filter, separatorPlugin, COMPluginInfo.toPlugin, ih]
      · rw [if_neg h]
        simp [List.filter, COMPluginInfo.toPlugin, ih]

theorem comEmit_append_cons_cons (l₁ : List COMPluginInfo) :
    ∀ (ne : Bool) (cur : Int) (a b : COMPluginInfo) (l₂ : List COMPluginInfo),
      comEmit ne cur (l₁ ++ a :: b :: l₂)
        = comEmit ne cur (l₁ ++ [a]) ++
          ((if a.groupId = b.groupId then [] else [separatorPlugin]) ++
            b.toPlugin :: comEmit true b.groupId l₂) := by
  induction l₁ with
  | nil =>
      intro ne cur a b l₂
      simp only [List.nil_append, comEmit]
      by_cases h : a.groupId = b.groupId
      · simp [h]
      · simp [h]
  | cons c l₁ ih =>
      intro ne cur a b l₂
      rw [List.cons_append, List.cons_append, comEmit, comEmit, ih]
      simp

theorem comEmit_concat_ends (l₁ : List COMPluginInfo) :
    ∀ (ne : Bool) (cur : Int) (a : COMPluginInfo),
      ∃ l', comEmit ne cur (l₁ ++ [a]) = l' ++ [a.toPlugin] := by
  induction l₁ with
  | nil =>
      intro ne cur a
      refine ⟨if ne ∧ cur ≠ a.groupId then [separatorPlugin] else [], ?_⟩
      simp [comEmit]
  | cons c l₁ ih =>
      intro ne cur a
      rcases ih true c.groupId a with ⟨l', hl'⟩
      refine ⟨(if ne ∧ cur ≠ c.groupId then [separatorPlugin] else []) ++
        c.toPlugin :: l', ?_⟩
      rw [List.cons_append, comEmit, hl']
      simp

/-! ### Facts about the full sort-dedup phase -/

theorem rId_total (a b : COMPluginInfo) (h : ¬rId a b) : rId b a := by
  rw [rId_iff] at h ⊢; omega

theorem rId_trans (a b c : COMPluginInfo) (h1 : rId a b) (h2 : rId b c) :
    rId a c := by
  rw [rId_iff] at h1 h2 ⊢; omega

theorem nodup_map_of_short {α β : Type} (f : α → β) (l : List α)
    (h : l.length ≤ 1) : (l.map f).Nodup := by
  cases l with
  | nil => simp
  | cons x rest =>
      cases rest with
      | nil => simp
      | cons y rest2 => simp at h

/-- The elements of the sorted-and-deduplicated list all come from the
candidate list. -/
theorem mem_comSortedDedup (infos : List COMPluginInfo) (x : COMPluginInfo)
    (hx : x ∈ comSortedDedup infos) : x ∈ infos := by
  unfold comSortedDedup at hx
  rw [List.mem_insertionSort] at hx
  by_cases h : 1 < infos.length
  · rw [if_pos h] at hx
    have h1 := (removeAdjDupIds_sublist (List.insertionSort rId infos)).subset hx
    exact (List.mem_insertionSort rId).mp h1
  · rwa [if_neg h] at hx

/-- The ids of the sorted-and-deduplicated list contain no duplicates. -/
theorem nodup_ids_comSortedDedup (infos : List COMPluginInfo) :
    ((comSortedDedup infos).map COMPluginInfo.id).Nodup := by
  unfold comSortedDedup
  have hperm : List.Perm
      (List.insertionSort rGroup
        (if 1 < infos.length then removeAdjDupIds (List.insertionSort rId infos)
         else infos))
      (if 1 < infos.length then removeAdjDupIds (List.insertionSort rId infos)
       else infos) :=
    List.perm_insertionSort rGroup _
  refine ((hperm.map COMPluginInfo.id).nodup_iff).mpr ?_
  by_cases h : 1 < infos.length
  · rw [if_pos h]
    refine nodup_map_id_removeAdjDupIds _ ?_
    exact pairwise_insertionSort_of rId (fun _ => True)
      (fun a b _ _ hab => rId_total a b hab)
      (fun a b c _ _ _ h1 h2 => rId_trans a b c h1 h2)
      infos (fun _ _ => trivial)
  · rw [if_neg h]
    exact nodup_map_of_short COMPluginInfo.id infos (by omega)

/-- The sorted-and-deduplicated list retains exactly the candidate ids. -/
theorem mem_ids_comSortedDedup (infos : List COMPluginInfo) (i : Nat) :
    i ∈ (comSortedDedup infos).map COMPluginInfo.id ↔
      i ∈ infos.map COMPluginInfo.id := by
  unfold comSortedDedup
  have hperm : List.Perm
      (List.insertionSort rGroup
        (if 1 < infos.length then removeAdjDupIds (List.insertionSort rId infos)
         else infos))
      (if 1 < infos.length then removeAdjDupIds (List.insertionSort rId infos)
       else infos) :=
    List.perm_insertionSort rGroup _
  rw [(hperm.map COMPluginInfo.id).mem_iff]
  by_cases h : 1 < infos.length
  · rw [if_pos h, mem_map_id_removeAdjDupIds]
    constructor
    · intro hi
      rcases List.mem_map.mp hi with ⟨x, hx, hxi⟩
      exact List.mem_map.mpr ⟨x, (List.mem_insertionSort rId).mp hx, hxi⟩
    · intro hi
      rcases List.mem_map.mp hi with ⟨x, hx, hxi⟩
      exact List.mem_map.mpr ⟨x, (List.mem_insertionSort rId).mpr hx, hxi⟩
  · rw [if_neg h]

/-- On in-range candidates, the sorted-and-deduplicated list is ordered by
group id, ties broken by group position. -/
theorem pairwise_lexLE_comSortedDedup (infos : List COMPluginInfo)
    (hrange : ∀ x ∈ infos, InRange x) :
    (comSortedDedup infos).Pairwise lexLE := by
  have hmem : ∀ x ∈ comSortedDedup infos, InRange x := fun x hx =>
    hrange x (mem_comSortedDedup infos x hx)
  have hpair : (comSortedDedup infos).Pairwise rGroup := by
    unfold comSortedDedup at hmem ⊢
    refine pairwise_insertionSort_of rGroup InRange
      rGroup_total_inRange rGroup_trans_inRange _ ?_
    intro x hx
    have : x ∈ List.insertionSort rGroup
        (if 1 < infos.length then removeAdjDupIds (List.insertionSort rId infos)
         else infos) := by
      rw [List.mem_insertionSort]; exact hx
    exact hmem x this
  exact hpair.imp_of_mem fun ha hb hr =>
    (rGroup_iff_lexLE _ _ (hmem _ ha) (hmem _ hb)).mp hr

/-! ### Claim C1 -/

/-- C1 (amended): for every pair of candidate lists collected from the
machine-wide and user-specific scopes, the assembly step retains each
candidate id exactly once (first and second conjuncts, unconditional),
the emitted non-separator entries are exactly the sorted deduplicated
beans, in order (fourth conjunct, unconditional), and — provided every
candidate's group id and group position are non-negative 32-bit values,
so that the subtraction-based comparator does not wrap — the retained
entries are ordered by group id ascending, ties broken by group position
ascending (third conjunct). -/
theorem C1_com_assembly_dedup_sorted (g u : List COMPluginInfo) :
    ((comSortedDedup (g ++ u)).map COMPluginInfo.id).Nodup ∧
    (∀ i, i ∈ (comSortedDedup (g ++ u)).map COMPluginInfo.id ↔
        i ∈ (g ++ u).map COMPluginInfo.id) ∧
    ((∀ x ∈ g ++ u, InRange x) → (comSortedDedup (g ++ u)).Pairwise lexLE) ∧
    ∀ init : List MPlugin,
      (GetCOMPlugins init (g ++ u)).filter (fun p => !p.isSep)
        = init.filter (fun p => !p.isSep) ++
          (comSortedDedup (g ++ u)).map COMPluginInfo.toPlugin := by
  refine ⟨nodup_ids_comSortedDedup (g ++ u),
    mem_ids_comSortedDedup (g ++ u),
    fun hrange => pairwise_lexLE_comSortedDedup (g ++ u) hrange, ?_⟩
  intro init
  unfold GetCOMPlugins
  rw [comEmitLoop_eq_comEmit, List.filter_append, filter_comEmit]

/-- C1, counterexample to the claim as stated: with two candidates whose
group ids are `Int32.MinValue` and `Int32.MaxValue`, the unchecked
subtraction in the comparator wraps around, so the assembled list is NOT
ordered by group id ascending. -/
theorem C1_com_assembly_dedup_sorted_counterexample :
    ¬ (comSortedDedup
        [⟨1, -(2 : Int) ^ 31, 0, true⟩, ⟨2, 2 ^ 31 - 1, 0, false⟩]).Pairwise
        lexLE := by decide

/-- Concrete machine-wide candidate list used to witness C1. -/
def c1g : List COMPluginInfo := [⟨5, 1, 0, true⟩, ⟨9, 0, 7, true⟩]

/-- Concrete user-specific candidate list used to witness C1 (id 5 is
registered in both scopes). -/
def c1u : List COMPluginInfo := [⟨5, 3, 2, false⟩, ⟨7, 1, 1, false⟩]

/-- C1, witness: the amended theorem applied to concrete candidate
lists, with the in-range proviso of the ordering conjunct discharged
there. -/
theorem C1_com_assembly_dedup_sorted_witness :
    (∀ x ∈ c1g ++ c1u, InRange x) ∧
    ((comSortedDedup (c1g ++ c1u)).map COMPluginInfo.id).Nodup ∧
    (∀ i, i ∈ (comSortedDedup (c1g ++ c1u)).map COMPluginInfo.id ↔
        i ∈ (c1g ++ c1u).map COMPluginInfo.id) ∧
    (comSortedDedup (c1g ++ c1u)).Pairwise lexLE ∧
    ∀ init : List MPlugin,
      (GetCOMPlugins init (c1g ++ c1u)).filter (fun p => !p.isSep)
        = init.filter (fun p => !p.isSep) ++
          (comSortedDedup (c1g ++ c1u)).map COMPluginInfo.toPlugin :=
  ⟨by decide, (C1_com_assembly_dedup_sorted c1g c1u).1,
    (C1_com_assembly_dedup_sorted c1g c1u).2.1,
    (C1_com_assembly_dedup_sorted c1g c1u).2.2.1 (by decide),
    (C1_com_assembly_dedup_sorted c1g c1u).2.2.2⟩

/-! ### Claim C2 -/

/-- C2: in the default-order list, the emission loop of the COM-plugin
step (`comEmitLoop`, linked to its specification form `comEmit` by the
first conjunct) inserts a separator between two consecutively emitted
entries exactly when their group ids differ (second conjunct; the third
conjunct shows the part emitted up to the first of the two entries indeed
ends with that entry), and when the output list is empty at the start of
the loop no separator is emitted before the very first entry (fourth
conjunct). -/
theorem C2_separator_iff_group_change :
    (∀ (init : List MPlugin) (cur : Int) (infos : List COMPluginInfo),
      comEmitLoop init cur infos
        = init ++ comEmit (decide (0 < init.length)) cur infos) ∧
    (∀ (ne : Bool) (cur : Int) (l₁ : List COMPluginInfo)
        (a b : COMPluginInfo) (l₂ : List COMPluginInfo),
      comEmit ne cur (l₁ ++ a :: b :: l₂)
        = comEmit ne cur (l₁ ++ [a]) ++
          ((if a.groupId = b.groupId then [] else [separatorPlugin]) ++
            b.toPlugin :: comEmit true b.groupId l₂)) ∧
    (∀ (ne : Bool) (cur : Int) (l₁ : List COMPluginInfo) (a : COMPluginInfo),
      (comEmit ne cur (l₁ ++ [a])).getLast? = some a.toPlugin) ∧
    (∀ (cur : Int) (info : COMPluginInfo) (rest : List COMPluginInfo),
      comEmitLoop [] cur (info :: rest)
        = info.toPlugin :: comEmit true info.groupId rest) := by
  refine ⟨fun init cur infos => comEmitLoop_eq_comEmit infos init cur,
    fun ne cur l₁ a b l₂ => comEmit_append_cons_cons l₁ ne cur a b l₂,
    fun ne cur l₁ a => ?_, fun cur info rest => ?_⟩
  · rcases comEmit_concat_ends l₁ ne cur a with ⟨l', hl'⟩
    rw [hl', List.getLast?_concat]
  · rw [comEmitLoop_eq_comEmit]
    simp [comEmit]

/-! ### Claims C3 and C4 -/

/-- Concrete plugin A used in the claim scenarios. -/
def mpA : MPlugin := ⟨1, false⟩

/-- Concrete plugin B used in the claim scenarios. -/
def mpB : MPlugin := ⟨2, false⟩

/-- Concrete plugin C used in the claim scenarios. -/
def mpC : MPlugin := ⟨3, false⟩

/-- C3: with no known-plugin set supplied, `OrderPluginsToDisplay` walks
`displayOrder` and appends, in order, exactly the plugins found in the
map, silently skipping absent ids (first conjunct: the output is the
`filterMap` of the lookups); in particular `displayOrder = [A, B, C]`
over `allPlugins = {A, B, C}` reproduces `[A, B, C]` (second conjunct),
and a stale id in `displayOrder` is skipped (third conjunct). -/
theorem C3_display_order_walk :
    (∀ (plugins : List (Nat × MPlugin)) (displayOrder : List Nat)
        (dflt : Option (List MPlugin)),
      OrderPluginsToDisplay plugins displayOrder none dflt
        = displayOrder.filterMap (fun id => TryGetValue plugins id)) ∧
    OrderPluginsToDisplay [(1, mpA), (2, mpB), (3, mpC)] [1, 2, 3] none none
      = [mpA, mpB, mpC] ∧
    OrderPluginsToDisplay [(1, mpA), (2, mpB)] [1, 9, 2] none none
      = [mpA, mpB] :=
  ⟨fun _ _ _ => rfl, by decide, by decide⟩

/-- C4: the unknown-plugin recovery scenario: `allPlugins = {A, B, C}`,
`displayOrder = [A]`, `knownIds = {A}`, default list `[A, Sep, B, C]`
produces `[A, Sep, B, C]` — a separator is appended (the result `[A]` is
non-empty and does not end in a separator), then the unknown plugins B
and C follow in default-list order. -/
theorem C4_unknown_recovery_scenario :
    OrderPluginsToDisplay [(1, mpA), (2, mpB), (3, mpC)] [1] (some [1])
      (some [mpA, separatorPlugin, mpB, mpC])
      = [mpA, separatorPlugin, mpB, mpC] := by decide

/-! ### Claim C6 -/

/-- C6: when pipeline plugins are requested: if at least one exists and
the list so far is non-empty, exactly one separator is appended first,
followed by all pipeline plugins in their stored order; if the list so
far is empty, the pipeline plugins are appended with no separator; if no
pipeline plugin exists, nothing is appended. -/
theorem C6_pipeline_append :
    (∀ plugins pipelinePlugins : List MPlugin,
      pipelinePlugins ≠ [] → plugins ≠ [] →
        GetPipelinePlugins plugins pipelinePlugins
          = plugins ++ separatorPlugin :: pipelinePlugins) ∧
    (∀ pipelinePlugins : List MPlugin, pipelinePlugins ≠ [] →
        GetPipelinePlugins [] pipelinePlugins = pipelinePlugins) ∧
    (∀ plugins : List MPlugin, GetPipelinePlugins plugins [] = plugins) := by
  refine ⟨fun plugins pipelinePlugins hpp hp => ?_,
    fun pipelinePlugins hpp => ?_, fun plugins => ?_⟩
  · unfold GetPipelinePlugins
    rw [if_pos (List.length_pos.mpr hpp), if_pos (List.length_pos.mpr hp)]
    simp
  · unfold GetPipelinePlugins
    rw [if_pos (List.length_pos.mpr hpp)]
    simp
  · unfold GetPipelinePlugins
    simp

/-- C6, witness: the three behaviors at concrete lists. -/
theorem C6_pipeline_append_witness :
    GetPipelinePlugins [mpA] [mpB, mpC] = [mpA, separatorPlugin, mpB, mpC] ∧
    GetPipelinePlugins [] [mpB] = [mpB] ∧
    GetPipelinePlugins [mpA] [] = [mpA] :=
  ⟨C6_pipeline_append.1 [mpA] [mpB, mpC] (by decide) (by decide),
    C6_pipeline_append.2.1 [mpB] (by decide),
    C6_pipeline_append.2.2 [mpA]⟩

/-! ### Claim C7 -/

theorem collectEntry_eq_none (parse : List Char → Option Nat) (g : Bool)
    (bad : RawEntry)
    (hbad : bad.name = legacyLastUpdateName ∨ parse bad.name = none ∨
      bad.meta = none) : collectEntry parse g bad = none := by
  unfold collectEntry
  by_cases hleg : bad.name = legacyLastUpdateName
  · rw [if_pos hleg]
  · rw [if_neg hleg]
    rcases hbad with h | h | h
    · exact absurd h hleg
    · rw [h]
    · cases hp : parse bad.name with
      | none => rfl
      | some id => rw [h]

/-- C7: during COM-plugin collection, an access-denied (or missing)
registration key contributes no entries (first conjunct), and a candidate
whose name is the legacy marker, fails to parse as a UUID, or whose
metadata fetch fails, is skipped without affecting its sibling candidates
(second conjunct).  Both scans produce a result in every case, so none of
these conditions makes the assembly fail. -/
theorem C7_collection_error_recovery :
    (∀ (parse : List Char → Option Nat) (g : Bool),
      collectScope parse none g = []) ∧
    (∀ (parse : List Char → Option Nat) (g : Bool)
        (pre post : List RawEntry) (bad : RawEntry),
      (bad.name = legacyLastUpdateName ∨ parse bad.name = none ∨
        bad.meta = none) →
      collectScope parse (some (pre ++ bad :: post)) g
        = collectScope parse (some (pre ++ post)) g) := by
  refine ⟨fun parse g => rfl, fun parse g pre post bad hbad => ?_⟩
  show (pre ++ bad :: post).filterMap (collectEntry parse g)
    = (pre ++ post).filterMap (collectEntry parse g)
  rw [List.filterMap_append, List.filterMap_append, List.filterMap_cons,
    collectEntry_eq_none parse g bad hbad]

/-- The UUID parse function used to witness C7: accepts exactly the
braced GUID format and returns the first data field. -/
def c7parse : List Char → Option Nat :=
  fun cs => (CLSIDFromString cs).map MGUID.data1

/-- A valid sibling candidate used to witness C7. -/
def c7good1 : RawEntry := ⟨guidToChars ⟨1, 2, 3, [0, 0, 0, 0, 0, 0, 0, 1]⟩,
  some ⟨1, 0⟩⟩

/-- The invalid candidate used to witness C7: its name is the string
"not-a-guid", which does not parse as a UUID. -/
def c7bad : RawEntry := ⟨['n', 'o', 't', '-', 'a', '-', 'g', 'u', 'i', 'd'],
  some ⟨2, 0⟩⟩

/-- A second valid sibling candidate used to witness C7. -/
def c7good2 : RawEntry := ⟨guidToChars ⟨4, 5, 6, [0, 0, 0, 0, 0, 0, 0, 2]⟩,
  some ⟨3, 1⟩⟩

/-- C7, witness: the candidate named "not-a-guid" is skipped without
affecting its sibling candidates, and an access-denied scope contributes
no entries. -/
theorem C7_collection_error_recovery_witness :
    (c7bad.name = legacyLastUpdateName ∨ c7parse c7bad.name = none ∨
      c7bad.meta = none) ∧
    collectScope c7parse (some [c7good1, c7bad, c7good2]) true
      = collectScope c7parse (some [c7good1, c7good2]) true ∧
    collectScope c7parse (some [c7good1, c7good2]) true
      = [⟨1, 1, 0, true⟩, ⟨4, 3, 1, true⟩] ∧
    collectScope c7parse none false = [] :=
  ⟨Or.inr (Or.inl (by decide)),
    C7_collection_error_recovery.2 c7parse true [c7good1] [c7good2] c7bad
      (Or.inr (Or.inl (by decide))),
    by decide,
    C7_collection_error_recovery.1 c7parse false⟩

/-! ### Claim C8 -/

theorem PipelineGetPath_append (l1 l2 : List PipelineStep) :
    ∀ input, PipelineGetPath (l1 ++ l2) input
      = (PipelineGetPath l1 input).bind (PipelineGetPath l2) := by
  induction l1 with
  | nil => intro input; simp [PipelineGetPath]
  | cons s rest ih =>
      intro input
      rw [List.cons_append, PipelineGetPath, PipelineGetPath]
      cases s input with
      | ok out => exact ih out
      | hardFail => rfl

/-- C8: when some step of a pipeline signals a hard failure, execution
stops there and the whole pipeline reports failure (`none`): the
intermediate path computed by the earlier steps is discarded and is never
reported as the result. -/
theorem C8_hard_failure_discards_intermediate (pre post : List PipelineStep)
    (f : PipelineStep) (input mid : List Char)
    (hpre : PipelineGetPath pre input = some mid)
    (hf : f mid = StepResult.hardFail) :
    PipelineGetPath (pre ++ f :: post) input = none ∧
      ∀ z : List Char, PipelineGetPath (pre ++ f :: post) input ≠ some z := by
  have h : PipelineGetPath (pre ++ f :: post) input = none := by
    rw [PipelineGetPath_append, hpre, Option.some_bind, PipelineGetPath, hf]
  exact ⟨h, fun z hz => by rw [h] at hz; exact Option.noConfusion hz⟩

/-- First step of the concrete three-step pipeline witnessing C8:
appends a character to the path. -/
def c8s1 : PipelineStep := fun s => StepResult.ok (s ++ ['1'])

/-- Second step of the concrete pipeline witnessing C8: always
hard-fails (e.g. its external command cannot be spawned). -/
def c8s2 : PipelineStep := fun _ => StepResult.hardFail

/-- Third step of the concrete pipeline witnessing C8: the identity. -/
def c8s3 : PipelineStep := fun s => StepResult.ok s

/-- C8, witness: in the three-step pipeline whose second step hard-fails,
the reported result is a failure and in particular is never the output of
step 1 alone. -/
theorem C8_hard_failure_discards_intermediate_witness :
    PipelineGetPath [c8s1] ['x'] = some ['x', '1'] ∧
    c8s2 ['x', '1'] = StepResult.hardFail ∧
    PipelineGetPath ([c8s1] ++ c8s2 :: [c8s3]) ['x'] = none ∧
    PipelineGetPath ([c8s1] ++ c8s2 :: [c8s3]) ['x'] ≠ some ['x', '1'] :=
  ⟨rfl, rfl,
    (C8_hard_failure_discards_intermediate [c8s1] [c8s3] c8s2 ['x'] ['x', '1']
      rfl rfl).1,
    (C8_hard_failure_discards_intermediate [c8s1] [c8s3] c8s2 ['x'] ['x', '1']
      rfl rfl).2 ['x', '1']⟩

/-! ### Claim C5: lemmas about the two walks -/

theorem TryGetValue_mem (plugins : List (Nat × MPlugin)) :
    ∀ (i : Nat) (p : MPlugin), TryGetValue plugins i = some p →
      (i, p) ∈ plugins := by
  induction plugins with
  | nil => intro i p h; simp [TryGetValue] at h
  | cons pr rest ih =>
      intro i p h
      rw [TryGetValue] at h
      by_cases hk : pr.1 = i
      · rw [if_pos hk] at h
        rcases pr with ⟨k, v⟩
        have hv : v = p := by simpa using h
        have hk' : k = i := hk
        rw [← hk', ← hv]
        exact List.mem_cons_self _ _
      · rw [if_neg hk] at h
        exact List.mem_cons.mpr (Or.inr (ih i p h))

/-- When each value of the map carries its own key as id, the ids of a
`filterMap` lookup walk form a sublist of the walked id list. -/
theorem ids_filterMap_lookup_sublist (plugins : List (Nat × MPlugin))
    (hwf : ∀ pr ∈ plugins, pr.2.id = pr.1) :
    ∀ l : List Nat,
      List.Sublist
        ((l.filterMap (fun id => TryGetValue plugins id)).map MPlugin.id) l := by
  intro l
  induction l with
  | nil => simp
  | cons i rest ih =>
      rw [List.filterMap_cons]
      cases h : TryGetValue plugins i with
      | none => exact ih.cons i
      | some p =>
          have hpi : p.id = i := hwf (i, p) (TryGetValue_mem plugins i p h)
          rw [List.map_cons, hpi]
          exact ih.cons₂ i

/-- Every plugin produced by a lookup walk is a value of the map. -/
theorem mem_filterMap_lookup (plugins : List (Nat × MPlugin)) (l : List Nat)
    (p : MPlugin) (hp : p ∈ l.filterMap (fun id => TryGetValue plugins id)) :
    ∃ i, (i, p) ∈ plugins ∧ i ∈ l := by
  rcases List.mem_filterMap.mp hp with ⟨i, hil, hi⟩
  exact ⟨i, TryGetValue_mem plugins i p hi, hil⟩

/-- The non-separator entries appended by the default-order walk are
exactly the non-separator entries of the default list whose id is
unknown, in order. -/
theorem filter_unknownWalk (u : Finset Nat) (dflt : List MPlugin) :
    ∀ prev, (unknownWalk u dflt prev).filter (fun p => !p.isSep)
      = dflt.filter (fun p => !p.isSep && decide (p.id ∈ u)) := by
  induction dflt with
  | nil => intro prev; simp [unknownWalk]
  | cons p rest ih =>
      intro prev
      rw [unknownWalk]
      by_cases hsep : p.isSep = false
      · rw [if_pos hsep]
        by_cases hmem : p.id ∈ u
        · rw [if_pos hmem, List.filter_cons, List.filter_cons]
          simp only [hsep, hmem, decide_true_eq_true]
          simp [ih true]
        · rw [if_neg hmem, List.filter_cons]
          simp only [hsep, hmem]
          simp [ih false]
      · rw [if_neg hsep]
        have hsep' : p.isSep = true := by
          cases hps : p.isSep
          · exact absurd hps hsep
          · rfl
        by_cases hprev : prev = true
        · rw [if_pos hprev, List.filter_cons, List.filter_cons]
          simp only [hsep']
          simp [ih false]
        · rw [if_neg hprev, List.filter_cons]
          simp only [hsep']
          simp [ih false]

/-- Closed form of `OrderPluginsToDisplay` when a known-plugin set is
supplied. -/
theorem OrderPluginsToDisplay_some (plugins : List (Nat × MPlugin))
    (displayOrder known : List Nat) (dflt : Option (List MPlugin)) :
    OrderPluginsToDisplay plugins displayOrder (some known) dflt
      = if 0 < (unknownIdsOf plugins known).card then
          withSeparatorIfNeeded (displayOrderWalk plugins displayOrder) ++
            (match dflt with
             | some d => unknownWalk (unknownIdsOf plugins known) d false
             | none => ((unknownIdsOf plugins known).sort (· ≤ ·)).filterMap
                 (fun id => TryGetValue plugins id))
        else displayOrderWalk plugins displayOrder := by
  cases dflt <;> by_cases hcard : 0 < (unknownIdsOf plugins known).card <;>
    simp [OrderPluginsToDisplay, hcard]

/-- Appending the optional separator does not change the non-separator
entries. -/
theorem filter_withSeparatorIfNeeded (l : List MPlugin) :
    (withSeparatorIfNeeded l).filter (fun p => !p.isSep)
      = l.filter (fun p => !p.isSep) := by
  unfold withSeparatorIfNeeded
  by_cases h : 0 < l.length ∧ lastIsSeparator l = false
  · rw [if_pos h, List.filter_append]
    simp [separatorPlugin]
  · rw [if_neg h]

/-- C5 (amended): when the map is well formed (each key maps to a plugin
carrying that id), `displayOrder` contains no duplicate ids, the
non-separator entries of the default list carry pairwise distinct ids,
and `knownIds` is accurate (every plugin id of the map that occurs in
`displayOrder` is known), each plugin id appears at most once among the
non-separator entries of the list returned by `OrderPluginsToDisplay`,
whether it is reached through the display-order walk or through the
unknown-plugin walk. -/
theorem C5_no_duplicate_ids (plugins : List (Nat × MPlugin))
    (displayOrder known : List Nat) (dflt : Option (List MPlugin))
    (hwf : ∀ pr ∈ plugins, pr.2.id = pr.1)
    (hdo : displayOrder.Nodup)
    (hacc : ∀ pr ∈ plugins, pr.2.id ∈ displayOrder → pr.2.id ∈ known)
    (hdflt : ∀ l, dflt = some l →
      ((l.filter (fun p => !p.isSep)).map MPlugin.id).Nodup) :
    (((OrderPluginsToDisplay plugins displayOrder (some known) dflt).filter
        (fun p => !p.isSep)).map MPlugin.id).Nodup := by
  rw [OrderPluginsToDisplay_some]
  have hsub1 : List.Sublist
      (((displayOrderWalk plugins displayOrder).filter
          (fun p => !p.isSep)).map MPlugin.id) displayOrder := by
    refine List.Sublist.trans
      (((List.filter_sublist _)).map MPlugin.id) ?_
    exact ids_filterMap_lookup_sublist plugins hwf displayOrder
  have h1n : (((displayOrderWalk plugins displayOrder).filter
      (fun p => !p.isSep)).map MPlugin.id).Nodup := hdo.sublist hsub1
  have h1known : ∀ i ∈ ((displayOrderWalk plugins displayOrder).filter
      (fun p => !p.isSep)).map MPlugin.id, i ∈ known := by
    intro i hi
    rcases List.mem_map.mp hi with ⟨p, hpf, hpi⟩
    have hpw : p ∈ displayOrderWalk plugins displayOrder :=
      List.mem_of_mem_filter hpf
    rcases mem_filterMap_lookup plugins displayOrder p hpw with ⟨k, hkp, hkd⟩
    have hpk : p.id = k := hwf (k, p) hkp
    have : p.id ∈ displayOrder := by rw [hpk]; exact hkd
    have := hacc (k, p) hkp this
    rw [← hpi]; exact this
  have hdisj : ∀ i, i ∈ known → i ∉ unknownIdsOf plugins known := by
    intro i hik hiu
    rcases Finset.mem_sdiff.mp hiu with ⟨_, hnk⟩
    exact hnk (List.mem_toFinset.mpr hik)
  by_cases hcard : 0 < (unknownIdsOf plugins known).card
  · rw [if_pos hcard]
    rw [List.filter_append, List.map_append]
    rw [filter_withSeparatorIfNeeded]
    refine List.nodup_append.mpr ⟨h1n, ?_, ?_⟩
    · cases dflt with
      | none =>
          refine List.Nodup.sublist ?_ (Finset.sort_nodup (· ≤ ·)
            (unknownIdsOf plugins known))
          refine List.Sublist.trans
            ((List.filter_sublist _).map MPlugin.id) ?_
          exact ids_filterMap_lookup_sublist plugins hwf _
      | some d =>
          rw [filter_unknownWalk]
          have heq : d.filter (fun p => !p.isSep &&
              decide (p.id ∈ unknownIdsOf plugins known))
            = (d.filter (fun p => !p.isSep)).filter
                (fun p => decide (p.id ∈ unknownIdsOf plugins known)) := by
            rw [List.filter_filter]
            refine List.filter_congr ?_
            intro p _
            rw [Bool.and_comm]
          rw [heq]
          refine List.Nodup.sublist ?_ (hdflt d rfl)
          exact (List.filter_sublist _).map MPlugin.id
    · intro i hi1 hi2
      have hik : i ∈ known := h1known i hi1
      refine hdisj i hik ?_
      cases dflt with
      | none =>
          rcases List.mem_map.mp hi2 with ⟨p, hpf, hpi⟩
          have hpw : p ∈ ((unknownIdsOf plugins known).sort
              (· ≤ ·)).filterMap (fun id => TryGetValue plugins id) :=
            List.mem_of_mem_filter hpf
          rcases mem_filterMap_lookup plugins _ p hpw with ⟨k, hkp, hks⟩
          have hpk : p.id = k := hwf (k, p) hkp
          rw [← hpi, hpk]
          exact (Finset.mem_sort (· ≤ ·)).mp hks
      | some d =>
          rw [filter_unknownWalk] at hi2
          rcases List.mem_map.mp hi2 with ⟨p, hpf, hpi⟩
          have := List.of_mem_filter hpf
          have hmem : p.id ∈ unknownIdsOf plugins known := by
            have hand := this
            rw [Bool.and_eq_true] at hand
            exact of_decide_eq_true hand.2
          rw [← hpi]
          exact hmem
  · rw [if_neg hcard]
    exact h1n

/-- C5, counterexample to the claim as stated: with the well-formed map
`{1 ↦ A}` and the accurate known set `{1}` (every map id occurring in the
display order is known), the duplicated display order `[1, 1]` makes id 1
appear twice in the output, so accuracy of `knownIds` alone does not
guarantee uniqueness. -/
theorem C5_no_duplicate_ids_counterexample :
    (∀ pr ∈ [((1 : Nat), mpA)], pr.2.id = pr.1) ∧
    (∀ pr ∈ [((1 : Nat), mpA)], pr.2.id ∈ [1, 1] → pr.2.id ∈ [1]) ∧
    ¬ (((OrderPluginsToDisplay [(1, mpA)] [1, 1] (some [1]) none).filter
        (fun p => !p.isSep)).map MPlugin.id).Nodup :=
  ⟨by decide, by decide, by decide⟩

/-- C5, witness: the amended theorem at a concrete instance — map
`{1 ↦ A, 2 ↦ B, 3 ↦ C}`, display order `[1]`, known `{1}`, default list
`[A, Sep, B, C]`. -/
theorem C5_no_duplicate_ids_witness :
    (∀ pr ∈ [((1 : Nat), mpA), (2, mpB), (3, mpC)], pr.2.id = pr.1) ∧
    ([(1 : Nat)].Nodup) ∧
    (∀ pr ∈ [((1 : Nat), mpA), (2, mpB), (3, mpC)],
      pr.2.id ∈ [(1 : Nat)] → pr.2.id ∈ [(1 : Nat)]) ∧
    (((OrderPluginsToDisplay [(1, mpA), (2, mpB), (3, mpC)] [1] (some [1])
        (some [mpA, separatorPlugin, mpB, mpC])).filter
          (fun p => !p.isSep)).map MPlugin.id).Nodup :=
  ⟨by decide, by decide, by decide,
    C5_no_duplicate_ids [(1, mpA), (2, mpB), (3, mpC)] [1] [1]
      (some [mpA, separatorPlugin, mpB, mpC])
      (by decide) (by decide) (by decide)
      (fun l hl => by injection hl with h; rw [← h]; decide)⟩

/-! ### Claim C10 -/

/-- Relation between adjacent menu entries: not both separators. -/
def notBothSeps (a b : MPlugin) : Prop :=
  a.isSep = false ∨ b.isSep = false

instance : DecidableRel notBothSeps := fun a b =>
  inferInstanceAs (Decidable (a.isSep = false ∨ b.isSep = false))

theorem chain_notBothSeps_of_all (l : List MPlugin)
    (h : ∀ p ∈ l, p.isSep = false) : l.Chain' notBothSeps := by
  induction l with
  | nil => simp
  | cons a rest ih =>
      rw [List.chain'_cons']
      refine ⟨fun b _ => Or.inl (h a (by simp)), ?_⟩
      exact ih fun p hp => h p (by simp [hp])

/-- When the walk starts with `prevWasUnknown = false`, its first emitted
entry is never a separator. -/
theorem unknownWalk_head_not_sep (u : Finset Nat) (dflt : List MPlugin) :
    ∀ q, (unknownWalk u dflt false).head? = some q → q.isSep = false := by
  induction dflt with
  | nil => intro q hq; simp [unknownWalk] at hq
  | cons p rest ih =>
      intro q hq
      rw [unknownWalk] at hq
      by_cases hsep : p.isSep = false
      · rw [if_pos hsep] at hq
        by_cases hmem : p.id ∈ u
        · rw [if_pos hmem] at hq
          simp at hq
          rw [← hq]; exact hsep
        · rw [if_neg hmem] at hq
          exact ih q hq
      · rw [if_neg hsep, if_neg (by simp : ¬(false = true))] at hq
        exact ih q hq

/-- The default-order walk never emits two adjacent separators: a
separator of the default list is only emitted right after an emitted
unknown plugin, and emitting it resets the marker. -/
theorem unknownWalk_chain (u : Finset Nat) (dflt : List MPlugin) :
    ∀ prev, (unknownWalk u dflt prev).Chain' notBothSeps := by
  induction dflt with
  | nil => intro prev; simp [unknownWalk]
  | cons p rest ih =>
      intro prev
      rw [unknownWalk]
      by_cases hsep : p.isSep = false
      · rw [if_pos hsep]
        by_cases hmem : p.id ∈ u
        · rw [if_pos hmem, List.chain'_cons']
          exact ⟨fun b _ => Or.inl hsep, ih true⟩
        · rw [if_neg hmem]; exact ih false
      · rw [if_neg hsep]
        by_cases hprev : prev = true
        · rw [if_pos hprev, List.chain'_cons']
          refine ⟨fun b hb => Or.inr ?_, ih false⟩
          exact unknownWalk_head_not_sep u rest b hb
        · rw [if_neg hprev]; exact ih false

/-- C10: when the map contains no separator entries, the list returned by
`OrderPluginsToDisplay` never contains two adjacent separators: the
separator before the unknown run is only appended when the result does
not already end in one, and the default-order walk emits a separator only
right after an emitted unknown plugin. -/
theorem C10_no_adjacent_separators (plugins : List (Nat × MPlugin))
    (displayOrder : List Nat) (knownPlugins : Option (List Nat))
    (dflt : Option (List MPlugin))
    (hsep : ∀ pr ∈ plugins, pr.2.isSep = false) :
    (OrderPluginsToDisplay plugins displayOrder knownPlugins dflt).Chain'
      notBothSeps := by
  have hwalk1 : ∀ p ∈ displayOrderWalk plugins displayOrder,
      p.isSep = false := by
    intro p hp
    rcases mem_filterMap_lookup plugins displayOrder p hp with ⟨k, hkp, _⟩
    exact hsep (k, p) hkp
  cases knownPlugins with
  | none => exact chain_notBothSeps_of_all _ hwalk1
  | some known =>
      rw [OrderPluginsToDisplay_some]
      by_cases hcard : 0 < (unknownIdsOf plugins known).card
      · rw [if_pos hcard]
        have hwalk2 :
            (match dflt with
             | some d => unknownWalk (unknownIdsOf plugins known) d false
             | none => ((unknownIdsOf plugins known).sort (· ≤ ·)).filterMap
                 (fun id => TryGetValue plugins id)).Chain' notBothSeps ∧
            ∀ q : MPlugin, (match dflt with
             | some d => unknownWalk (unknownIdsOf plugins known) d false
             | none => ((unknownIdsOf plugins known).sort (· ≤ ·)).filterMap
                 (fun id => TryGetValue plugins id)).head? = some q →
              q.isSep = false := by
          cases dflt with
          | some d =>
              exact ⟨unknownWalk_chain (unknownIdsOf plugins known) d false,
                fun q hq =>
                  unknownWalk_head_not_sep (unknownIdsOf plugins known) d q hq⟩
          | none =>
              have hall : ∀ p ∈ ((unknownIdsOf plugins known).sort
                  (· ≤ ·)).filterMap (fun id => TryGetValue plugins id),
                  p.isSep = false := by
                intro p hp
                rcases mem_filterMap_lookup plugins _ p hp with ⟨k, hkp, _⟩
                exact hsep (k, p) hkp
              refine ⟨chain_notBothSeps_of_all _ hall, fun q hq => ?_⟩
              exact hall q (List.mem_of_mem_head? hq)
      -- junction through the optional separator
        unfold withSeparatorIfNeeded
        by_cases hbc : 0 < (displayOrderWalk plugins displayOrder).length ∧
            lastIsSeparator (displayOrderWalk plugins displayOrder) = false
        · rw [if_pos hbc, List.append_assoc]
          refine List.chain'_append.mpr
            ⟨chain_notBothSeps_of_all _ hwalk1, ?_, ?_⟩
          · rw [List.singleton_append, List.chain'_cons']
            exact ⟨fun b hb => Or.inr (hwalk2.2 b hb), hwalk2.1⟩
          · intro x hx y _
            rcases List.mem_getLast?_eq_getLast hx with ⟨hne, hxl⟩
            refine Or.inl (hwalk1 x ?_)
            rw [hxl]
            exact List.getLast_mem hne
        · rw [if_neg hbc]
          have hempty : displayOrderWalk plugins displayOrder = [] := by
            by_contra hne
            refine hbc ⟨List.length_pos.mpr hne, ?_⟩
            unfold lastIsSeparator
            rw [List.getLast?_eq_getLast_of_ne_nil hne]
            exact hwalk1 _ (List.getLast_mem hne)
          rw [hempty, List.nil_append]
          exact hwalk2.1
      · rw [if_neg hcard]
        exact chain_notBothSeps_of_all _ hwalk1

/-- C10, witness: a separator-free map, with a default list that contains
separators, yields an output with no two adjacent separators. -/
theorem C10_no_adjacent_separators_witness :
    (∀ pr ∈ [((1 : Nat), mpA), (2, mpB)], pr.2.isSep = false) ∧
    (OrderPluginsToDisplay [(1, mpA), (2, mpB)] [1] (some [1])
      (some [mpA, separatorPlugin, mpB, separatorPlugin])).Chain'
        notBothSeps :=
  ⟨by decide,
    C10_no_adjacent_separators [(1, mpA), (2, mpB)] [1] (some [1])
      (some [mpA, separatorPlugin, mpB, separatorPlugin]) (by decide)⟩

/-! ### Claim C9: round trip of the plugin-id codec -/

theorem expectChar_cons_self (c : Char) (rest : List Char) :
    expectChar c (c :: rest) = some rest := by
  simp [expectChar]

theorem parseHexDigit_hexDigitChar :
    ∀ d : Nat, d < 16 → parseHexDigit (hexDigitChar d) = some d := by decide

theorem parseHexFixed_natToHex :
    ∀ (w n : Nat) (rest : List Char), n < 16 ^ w →
      parseHexFixed w (natToHex w n ++ rest) = some (n, rest) := by
  intro w
  induction w with
  | zero =>
      intro n rest hn
      have : n = 0 := by omega
      rw [this]
      rfl
  | succ w ih =>
      intro n rest hn
      rw [natToHex, List.cons_append, parseHexFixed]
      have hdiv : n / 16 ^ w < 16 := by
        rw [Nat.div_lt_iff_lt_mul (Nat.pos_pow_of_pos w (by omega))]
        rw [pow_succ] at hn
        omega
      rw [parseHexDigit_hexDigitChar (n / 16 ^ w) hdiv]
      rw [ih (n % 16 ^ w) rest (Nat.mod_lt n (Nat.pos_pow_of_pos w (by omega)))]
      have heq : n / 16 ^ w * 16 ^ w + n % 16 ^ w = n := by
        rw [Nat.mul_comm]
        exact Nat.div_add_mod n (16 ^ w)
      simp [heq]

theorem parseBytes_roundtrip (bs : List Nat) :
    ∀ rest : List Char, (∀ b ∈ bs, b < 256) →
      parseBytes bs.length ((bs.map byteToHex).flatten ++ rest)
        = some (bs, rest) := by
  induction bs with
  | nil => intro rest _; rfl
  | cons b bs ih =>
      intro rest hb
      rw [List.map_cons, List.flatten_cons, List.length_cons, parseBytes,
        List.append_assoc]
      rw [show byteToHex b = natToHex 2 b from rfl,
        parseHexFixed_natToHex 2 b _ (by
          have := hb b (by simp)
          omega)]
      simp [ih rest fun x hx => hb x (by simp [hx])]

theorem parseBytes_of_length (bs : List Nat) (k : Nat) (rest : List Char)
    (hk : bs.length = k) (hb : ∀ b ∈ bs, b < 256) :
    parseBytes k ((bs.map byteToHex).flatten ++ rest) = some (bs, rest) := by
  rw [← hk]
  exact parseBytes_roundtrip bs rest hb

theorem CLSIDFromString_guidToChars (g : MGUID) (hg : g.WF) :
    CLSIDFromString (guidToChars g) = some g := by
  obtain ⟨h1, h2, h3, hlen, hb⟩ := hg
  have htake : ∀ b ∈ g.data4.take 2, b < 256 :=
    fun b hbm => hb b (List.take_subset 2 g.data4 hbm)
  have hdrop : ∀ b ∈ g.data4.drop 2, b < 256 :=
    fun b hbm => hb b (List.drop_subset 2 g.data4 hbm)
  have ht2 : (g.data4.take 2).length = 2 := by
    rw [List.length_take, hlen]
    omega
  have hd6 : (g.data4.drop 2).length = 6 := by
    rw [List.length_drop, hlen]
  unfold CLSIDFromString guidToChars
  simp only [List.cons_append, List.append_assoc]
  rw [expectChar_cons_self]
  simp only [Option.some_bind]
  rw [parseHexFixed_natToHex 8 g.data1 _ (by norm_num at h1 ⊢; omega)]
  simp only [Option.some_bind]
  rw [expectChar_cons_self]
  simp only [Option.some_bind]
  rw [parseHexFixed_natToHex 4 g.data2 _ (by norm_num at h2 ⊢; omega)]
  simp only [Option.some_bind]
  rw [expectChar_cons_self]
  simp only [Option.some_bind]
  rw [parseHexFixed_natToHex 4 g.data3 _ (by norm_num at h3 ⊢; omega)]
  simp only [Option.some_bind]
  rw [expectChar_cons_self]
  simp only [Option.some_bind]
  rw [parseBytes_of_length (g.data4.take 2) 2 _ ht2 htake]
  simp only [Option.some_bind]
  rw [expectChar_cons_self]
  simp only [Option.some_bind]
  rw [parseBytes_of_length (g.data4.drop 2) 6 _ hd6 hdrop]
  simp only [Option.some_bind]
  rw [expectChar_cons_self]
  simp only [Option.some_bind]
  simp [List.take_append_drop]

theorem PluginIdsToString_eq_intercalate (sep : Char) :
    ∀ ids : List MGUID, PluginIdsToString ids sep
      = List.intercalate [sep] (ids.map guidToChars)
  | [] => by simp [PluginIdsToString, List.intercalate]
  | [g] => by
      simp [PluginIdsToString, List.intercalate, List.intersperse_singleton]
  | g :: g2 :: rest => by
      have ih := PluginIdsToString_eq_intercalate sep (g2 :: rest)
      rw [PluginIdsToString, List.intercalate] at ih ⊢
      simp only [List.map_cons]
      rw [List.intersperse_cons_cons, List.flatten_cons, List.flatten_cons]
      simp only [List.map_cons] at ih
      rw [List.flatten_cons]
      rw [← ih]
      simp

theorem hexDigitChar_mem_guidTextChars :
    ∀ d : Nat, d < 16 → hexDigitChar d ∈ guidTextChars := by decide

theorem natToHex_subset_guidTextChars :
    ∀ (w n : Nat), n < 16 ^ w → ∀ c ∈ natToHex w n, c ∈ guidTextChars := by
  intro w
  induction w with
  | zero => intro n _ c hc; simp [natToHex] at hc
  | succ w ih =>
      intro n hn c hc
      rw [natToHex] at hc
      rcases List.mem_cons.mp hc with rfl | hc'
      · refine hexDigitChar_mem_guidTextChars _ ?_
        rw [Nat.div_lt_iff_lt_mul (Nat.pos_pow_of_pos w (by omega))]
        rw [pow_succ] at hn
        omega
      · exact ih (n % 16 ^ w)
          (Nat.mod_lt n (Nat.pos_pow_of_pos w (by omega))) c hc'

theorem guidToChars_subset (g : MGUID) (hg : g.WF) :
    ∀ c ∈ guidToChars g, c ∈ guidTextChars := by
  obtain ⟨h1, h2, h3, hlen, hb⟩ := hg
  intro c hc
  unfold guidToChars at hc
  simp only [List.cons_append, List.append_assoc, List.mem_cons,
    List.mem_append] at hc
  have hbytes : ∀ (part : List Nat), (∀ b ∈ part, b < 256) →
      c ∈ (part.map byteToHex).flatten → c ∈ guidTextChars := by
    intro part hpart hcm
    rcases List.mem_flatten.mp hcm with ⟨l, hl, hcl⟩
    rcases List.mem_map.mp hl with ⟨b, hbm, hbe⟩
    rw [← hbe] at hcl
    exact natToHex_subset_guidTextChars 2 b (by
      have := hpart b hbm
      omega) c hcl
  rcases hc with rfl | hc | rfl | hc | rfl | hc | rfl | hc | rfl | hc | rfl | hf
  · decide
  · exact natToHex_subset_guidTextChars 8 g.data1 (by norm_num at h1 ⊢; omega) c hc
  · decide
  · exact natToHex_subset_guidTextChars 4 g.data2 (by norm_num at h2 ⊢; omega) c hc
  · decide
  · exact natToHex_subset_guidTextChars 4 g.data3 (by norm_num at h3 ⊢; omega) c hc
  · decide
  · exact hbytes (g.data4.take 2)
      (fun b hbm => hb b (List.take_subset 2 g.data4 hbm)) hc
  · decide
  · exact hbytes (g.data4.drop 2)
      (fun b hbm => hb b (List.drop_subset 2 g.data4 hbm)) hc
  · decide
  · simp at hf

theorem filterMap_CLSID_map (l : List MGUID) (hwf : ∀ g ∈ l, g.WF) :
    (l.map guidToChars).filterMap CLSIDFromString = l := by
  induction l with
  | nil => simp
  | cons g rest ih =>
      rw [List.map_cons, List.filterMap_cons,
        CLSIDFromString_guidToChars g (hwf g (by simp))]
      rw [ih fun x hx => hwf x (by simp [hx])]


/-- C9: encoding a list of plugin ids to a string and decoding it back is
the identity: for every list of well-formed GUIDs and every separator
character that cannot occur in the textual form of a GUID,
`StringToPluginIds` applied to the result of `PluginIdsToString` with the
same separator yields exactly the original list, in order. -/
theorem C9_plugin_ids_roundtrip (ids : List MGUID) (sep : Char)
    (hwf : ∀ g ∈ ids, g.WF) (hsep : sep ∉ guidTextChars) :
    StringToPluginIds (PluginIdsToString ids sep) sep = ids := by
  cases ids with
  | nil =>
      show StringToPluginIds [] sep = []
      unfold StringToPluginIds SplitString
      rw [List.splitOn_nil]
      simp [CLSIDFromString, expectChar]
  | cons g rest =>
      have hparts : ∀ l ∈ (g :: rest).map guidToChars, sep ∉ l := by
        intro l hl hmem
        rcases List.mem_map.mp hl with ⟨g2, hg2, hge⟩
        rw [← hge] at hmem
        exact hsep (guidToChars_subset g2 (hwf g2 hg2) sep hmem)
      have hne : (g :: rest).map guidToChars ≠ [] := by simp
      rw [PluginIdsToString_eq_intercalate]
      unfold StringToPluginIds SplitString
      rw [List.splitOn_intercalate ((g :: rest).map guidToChars) sep hparts hne]
      exact filterMap_CLSID_map (g :: rest) hwf

/-- First concrete GUID used to witness C9. -/
def c9g1 : MGUID := ⟨1, 2, 3, [1, 2, 3, 4, 5, 6, 7, 8]⟩

/-- Second concrete GUID used to witness C9. -/
def c9g2 : MGUID := ⟨3735928559, 4660, 43981, [0, 0, 0, 0, 0, 0, 0, 9]⟩

/-- C9, witness: the round trip at two concrete GUIDs with separator
comma (the separator used by the settings store). -/
theorem C9_plugin_ids_roundtrip_witness :
    (∀ g ∈ [c9g1, c9g2], MGUID.WF g) ∧ (',' ∉ guidTextChars) ∧
    StringToPluginIds (PluginIdsToString [c9g1, c9g2] ',') ','
      = [c9g1, c9g2] :=
  ⟨by decide, by decide,
    C9_plugin_ids_roundtrip [c9g1, c9g2] ',' (by decide) (by decide)⟩
